import Mathlib

/-!
Verification development for the Strategy Execution Orchestrator of the
sherpalanding repository.  The concrete code sketches in the repository
(strategy state machine, risk engine, recovery loop, circuit breaker) are
embedded directly; components that exist in the repository only as stubs or
prose descriptions (PolicyEngine, NonceManager, and the bodies of the
breaker helpers `should_attempt_reset` / `reset_counts`) are modelled from
the specification, as marked in their doc comments.  Python `float`
arithmetic is modelled by exact rationals, and `datetime` values by natural
numbers (seconds).
-/

namespace Sherpa

/-! ## Strategy state machine (app/core/strategy/state_machine.py sketch) -/

/-- The `StrategyState` enum of the source: nine states, with no
`cancelled` member. -/
inductive StrategyState where
  | idle
  | analyzing
  | planning
  | awaiting_approval
  | executing
  | monitoring
  | completed
  | failed
  | paused
  deriving DecidableEq, Repr

open StrategyState

/-- `StrategyStateMachine.TRANSITIONS`: the adjacency map from the source,
sending each state to its list of allowed successor states. -/
def TRANSITIONS : StrategyState → List StrategyState
  | idle => [analyzing]
  | analyzing => [planning, failed]
  | planning => [awaiting_approval, executing]
  | awaiting_approval => [executing, paused]
  | executing => [monitoring, failed]
  | monitoring => [completed, failed]
  | paused => [analyzing, idle]
  | failed => [idle]
  | completed => [idle]

/-- `StateTransition`: the audit record appended on every transition.
`context` is kept abstract as an optional string; `timestamp` models
`datetime.utcnow()` as a natural number supplied by the caller. -/
structure StateTransition where
  from_state : StrategyState
  to_state : StrategyState
  context : Option String
  timestamp : Nat
  deriving DecidableEq, Repr

/-- The mutable fields of a `StrategyStateMachine` instance. -/
structure StrategyStateMachine where
  strategy_id : String
  current_state : StrategyState
  state_history : List StateTransition
  deriving DecidableEq, Repr

/-- Errors surfaced by `transition_to`: the `InvalidTransitionError` raised
before any mutation, and a failure of the subsequent `persist_state` call. -/
inductive TransitionError where
  | invalidTransition (from_state to_state : StrategyState)
  | persistError
  deriving DecidableEq, Repr

/-- Result of one `transition_to` call: the machine object as it stands
after the call (Python's `self` survives a raised exception), together with
the error, if any, that the call raised. -/
structure TransitionResult where
  machine : StrategyStateMachine
  error : Option TransitionError
  deriving DecidableEq, Repr

/-- `StrategyStateMachine.transition_to`, phase by phase as in the source:
the target is checked against `TRANSITIONS[current_state]` first
(`InvalidTransitionError` raised before any mutation); otherwise the
`StateTransition` record is appended to `state_history` and `current_state`
is overwritten, and only then is `persist_state()` awaited — modelled by
the `persist_ok` flag: when persistence fails the exception propagates but
the already-performed mutations stay. -/
def transition_to (m : StrategyStateMachine) (new_state : StrategyState)
    (context : Option String) (now : Nat) (persist_ok : Bool) :
    TransitionResult :=
  if new_state ∈ TRANSITIONS m.current_state then
    let t : StateTransition :=
      { from_state := m.current_state, to_state := new_state,
        context := context, timestamp := now }
    let m' : StrategyStateMachine :=
      { m with state_history := m.state_history ++ [t],
               current_state := new_state }
    if persist_ok then
      { machine := m', error := none }
    else
      { machine := m', error := some .persistError }
  else
    { machine := m,
      error := some (.invalidTransition m.current_state new_state) }

/-- The states strictly past `awaiting_approval` in the execution
lifecycle. -/
def pastAwaitingApproval : List StrategyState :=
  [executing, monitoring, completed, failed]

/-! ## Claims C2, C3, C9 -/

/-- C2: a requested target state absent from the transition table for the
current state makes `transition_to` fail with `InvalidTransitionError`,
leaving `current_state` and `state_history` untouched; in particular
`approve` (the transition to `executing`) on a machine already past
`awaiting_approval` errors without appending a duplicate transition. -/
theorem invalid_transition_leaves_machine_unchanged
    (m : StrategyStateMachine) (new_state : StrategyState)
    (context : Option String) (now : Nat) (persist_ok : Bool)
    (h : new_state ∉ TRANSITIONS m.current_state) :
    (transition_to m new_state context now persist_ok).machine = m ∧
    (transition_to m new_state context now persist_ok).error =
      some (.invalidTransition m.current_state new_state) ∧
    (m.current_state ∈ pastAwaitingApproval →
      (transition_to m executing context now persist_ok).machine = m) := by
  refine ⟨?_, ?_, ?_⟩
  · simp [transition_to, h]
  · simp [transition_to, h]
  · intro hpast
    have hcases : m.current_state = executing ∨ m.current_state = monitoring ∨
        m.current_state = completed ∨ m.current_state = failed := by
      simpa [pastAwaitingApproval] using hpast
    have hnot : executing ∉ TRANSITIONS m.current_state := by
      rcases hcases with h1 | h1 | h1 | h1 <;> rw [h1] <;> decide
    simp [transition_to, hnot]

/-- Witness for C2: a machine sitting in `monitoring` rejects an `approve`
(transition to `executing`) and is returned unchanged. -/
theorem invalid_transition_leaves_machine_unchanged_witness :
    executing ∉ TRANSITIONS (StrategyStateMachine.mk "s" monitoring []).current_state ∧
    (transition_to (StrategyStateMachine.mk "s" monitoring []) executing none 0 true).machine =
      StrategyStateMachine.mk "s" monitoring [] := by
  refine ⟨by decide, ?_⟩
  exact (invalid_transition_leaves_machine_unchanged
    (StrategyStateMachine.mk "s" monitoring []) executing none 0 true
    (by decide)).1

/-- C3 (code bug evidence): in the declared transition table `failed` and
`completed` are not terminal — each may transition back to `idle` — and the
non-terminal state `idle` may not transition to `paused` (nor does any
`cancelled` state exist in the enum), contradicting the documented
"failed/cancelled/completed are terminal; any non-terminal state may pause,
cancel or fail". -/
theorem failed_and_completed_not_terminal :
    TRANSITIONS failed = [idle] ∧
    TRANSITIONS completed = [idle] ∧
    idle ∈ TRANSITIONS failed ∧
    paused ∉ TRANSITIONS idle ∧
    failed ∉ TRANSITIONS planning := by
  decide

/-- C9: when the requested transition is legal but persistence fails, the
machine has already overwritten `current_state` and appended the history
record — the in-memory state runs ahead of durable storage, with no
rollback. -/
theorem persist_failure_keeps_new_state
    (m : StrategyStateMachine) (new_state : StrategyState)
    (context : Option String) (now : Nat)
    (h : new_state ∈ TRANSITIONS m.current_state) :
    (transition_to m new_state context now false).machine.current_state = new_state ∧
    (transition_to m new_state context now false).machine.state_history =
      m.state_history ++
        [{ from_state := m.current_state, to_state := new_state,
           context := context, timestamp := now }] ∧
    (transition_to m new_state context now false).error = some .persistError := by
  refine ⟨?_, ?_, ?_⟩ <;> simp [transition_to, h]

/-- Witness for C9: a legal `idle → analyzing` transition with failing
persistence still lands the machine in `analyzing` with the record
appended. -/
theorem persist_failure_keeps_new_state_witness :
    analyzing ∈ TRANSITIONS (StrategyStateMachine.mk "s" idle []).current_state ∧
    (transition_to (StrategyStateMachine.mk "s" idle []) analyzing none 7 false).machine.current_state
      = analyzing := by
  refine ⟨by decide, ?_⟩
  exact (persist_failure_keeps_new_state
    (StrategyStateMachine.mk "s" idle []) analyzing none 7 (by decide)).1

/-! ## Risk engine scoring (app/core/risk sketch) -/

/-- The fields of a `CheckResult` consumed by `calculate_risk_score`
(`passed`, `warning` and `requires_human_approval` play no role in the
score and are omitted).  `float` is modelled by `ℚ`. -/
structure CheckResult where
  check_name : String
  risk_contribution : ℚ
  deriving DecidableEq, Repr

/-- The `weights` dictionary of `calculate_risk_score` together with its
`.get(name, 0.1)` default for unconfigured check names. -/
def riskWeights (name : String) : ℚ :=
  if name = "position_limit" then 2/10
  else if name = "daily_loss" then 25/100
  else if name = "concentration" then 15/100
  else if name = "slippage" then 15/100
  else if name = "gas_cost" then 1/10
  else if name = "contract_risk" then 15/100
  else 1/10

/-- `RiskEngine.calculate_risk_score`: the weighted sum
`sum(r.risk_contribution * weights.get(r.check_name, 0.1) for r in results)`. -/
def calculate_risk_score (results : List CheckResult) : ℚ :=
  (results.map (fun r => r.risk_contribution * riskWeights r.check_name)).sum

/-- The check names of the six checks the `RiskEngine` constructor
installs, in order. -/
def configuredChecks : List String :=
  ["position_limit", "daily_loss", "concentration", "slippage",
   "gas_cost", "contract_risk"]

theorem riskWeights_nonneg (name : String) : 0 ≤ riskWeights name := by
  unfold riskWeights
  split_ifs <;> norm_num

theorem configured_weights_sum :
    (configuredChecks.map riskWeights).sum = 1 := by
  simp [configuredChecks, riskWeights]
  norm_num

/-! ## Claims C8, C10 -/

/-- C8: over a result list coming from exactly the six configured checks
(one result per check, any order), with every risk contribution in
`[0, 1]`, the weights sum to 1 and the computed risk score lies in
`[0, 1]`. -/
theorem risk_score_in_unit_interval (results : List CheckResult)
    (hperm : List.Perm (results.map CheckResult.check_name) configuredChecks)
    (hc : ∀ r ∈ results, 0 ≤ r.risk_contribution ∧ r.risk_contribution ≤ 1) :
    (configuredChecks.map riskWeights).sum = 1 ∧
    0 ≤ calculate_risk_score results ∧ calculate_risk_score results ≤ 1 := by
  refine ⟨configured_weights_sum, ?_, ?_⟩
  · unfold calculate_risk_score
    apply List.sum_nonneg
    intro x hx
    obtain ⟨r, hr, rfl⟩ := List.mem_map.mp hx
    exact mul_nonneg (hc r hr).1 (riskWeights_nonneg r.check_name)
  · have hle : calculate_risk_score results ≤
        (results.map (fun r => riskWeights r.check_name)).sum := by
      unfold calculate_risk_score
      apply List.sum_le_sum
      intro r hr
      calc r.risk_contribution * riskWeights r.check_name
          ≤ 1 * riskWeights r.check_name :=
            mul_le_mul_of_nonneg_right (hc r hr).2
              (riskWeights_nonneg r.check_name)
        _ = riskWeights r.check_name := one_mul _
    have hmap : (results.map (fun r => riskWeights r.check_name)).sum =
        (configuredChecks.map riskWeights).sum := by
      have h1 : results.map (fun r => riskWeights r.check_name) =
          (results.map CheckResult.check_name).map riskWeights := by
        simp [List.map_map]
      rw [h1]
      exact (hperm.map riskWeights).sum_eq
    calc calculate_risk_score results
        ≤ (results.map (fun r => riskWeights r.check_name)).sum := hle
      _ = (configuredChecks.map riskWeights).sum := hmap
      _ = 1 := configured_weights_sum

/-- Witness for C8: the six configured checks each contributing 1 score
exactly 1. -/
theorem risk_score_in_unit_interval_witness :
    calculate_risk_score (configuredChecks.map (fun n => CheckResult.mk n 1)) ≤ 1 := by
  refine (risk_score_in_unit_interval
    (configuredChecks.map (fun n => CheckResult.mk n 1)) ?_ ?_).2.2
  · have h1 : (configuredChecks.map (fun n => CheckResult.mk n 1)).map
        CheckResult.check_name = configuredChecks := rfl
    rw [h1]
  · intro r hr
    obtain ⟨n, hn, rfl⟩ := List.mem_map.mp hr
    norm_num

/-- A concrete result list: one result per configured check plus a result
from a seventh, unconfigured check, every contribution equal to 1. -/
def overflowResults : List CheckResult :=
  configuredChecks.map (fun n => CheckResult.mk n 1) ++ [CheckResult.mk "extra_check" 1]

/-- C10: an unconfigured check name receives the default weight `0.1`, and
the concrete list `overflowResults` — every risk contribution in `[0, 1]` —
scores `1.1 > 1`. -/
theorem default_weight_pushes_score_above_one :
    riskWeights "extra_check" = 1/10 ∧
    (∀ r ∈ overflowResults,
      0 ≤ r.risk_contribution ∧ r.risk_contribution ≤ 1) ∧
    calculate_risk_score overflowResults = 11/10 ∧
    1 < calculate_risk_score overflowResults := by
  have hscore : calculate_risk_score overflowResults = 11/10 := by
    simp [calculate_risk_score, overflowResults, configuredChecks, riskWeights]
    norm_num
  refine ⟨?_, ?_, hscore, by rw [hscore]; norm_num⟩
  · simp [riskWeights]
  · intro r hr
    have hone : r.risk_contribution = 1 := by
      simp [overflowResults, configuredChecks] at hr
      rcases hr with h | h | h | h | h | h | h <;> rw [h]
    rw [hone]
    norm_num

/-! ## Error recovery loop (app/core/execution/recovery.py sketch) -/

/-- What `self.execute(action)` does on a given attempt: returns normally,
raises `RecoverableError`, or raises `UnrecoverableError`. -/
inductive AttemptOutcome where
  | success
  | recoverable
  | unrecoverable
  deriving DecidableEq, Repr

/-- Observable trace of one `execute_with_recovery` run: the attempt
indices at which `execute` was invoked, at which `handle_retry` ran, and at
which `escalate_to_human` ran, whether a result was returned, and whether
`try_fallback_strategies` ran after the loop. -/
structure RecoveryTrace where
  invoked : List Nat
  retries : List Nat
  escalations : List Nat
  succeeded : Bool
  fallback : Bool
  deriving DecidableEq, Repr

/-- The body of the `for attempt in range(self.max_retries)` loop of
`ExecutionContext.execute_with_recovery`, exactly as written: a success
returns; a `RecoverableError` runs `handle_retry` and continues; an
`UnrecoverableError` runs `escalate_to_human` and — the loop neither
breaks nor re-raises — also continues to the next attempt. -/
def recoveryLoop (op : Nat → AttemptOutcome) :
    Nat → Nat → RecoveryTrace → RecoveryTrace
  | _, 0, acc => { acc with fallback := true }
  | attempt, remaining + 1, acc =>
    let acc := { acc with invoked := acc.invoked ++ [attempt] }
    match op attempt with
    | .success => { acc with succeeded := true }
    | .recoverable =>
        recoveryLoop op (attempt + 1) remaining
          { acc with retries := acc.retries ++ [attempt] }
    | .unrecoverable =>
        recoveryLoop op (attempt + 1) remaining
          { acc with escalations := acc.escalations ++ [attempt] }

/-- `ExecutionContext.execute_with_recovery(action)`, with the behaviour of
`execute(action)` on each attempt given by `op` and `max_retries` as in the
class (default 3). -/
def execute_with_recovery (max_retries : Nat) (op : Nat → AttemptOutcome) :
    RecoveryTrace :=
  recoveryLoop op 0 max_retries
    { invoked := [], retries := [], escalations := [],
      succeeded := false, fallback := false }

/-! ## Claim C4 -/

/-- C4 (code bug evidence): with the default `max_retries = 3` and an
operation that raises `UnrecoverableError` on every attempt, the escalation
callback runs at attempt 0, and yet the operation is invoked again at
attempts 1 and 2 — the loop body lacks a `return`/`raise` after
`escalate_to_human`, so an unrecoverable failure does not stop retrying. -/
theorem unrecoverable_failure_still_retried :
    (execute_with_recovery 3 (fun _ => .unrecoverable)).escalations = [0, 1, 2] ∧
    (execute_with_recovery 3 (fun _ => .unrecoverable)).invoked = [0, 1, 2] ∧
    0 ∈ (execute_with_recovery 3 (fun _ => .unrecoverable)).escalations ∧
    1 ∈ (execute_with_recovery 3 (fun _ => .unrecoverable)).invoked := by
  refine ⟨rfl, rfl, ?_, ?_⟩ <;> decide

/-! ## Circuit breaker (app/core/resilience/circuit_breaker.py sketch) -/

/-- The `CircuitState` enum (`OPEN` is spelt `opened` because `open` is a
Lean keyword). -/
inductive CircuitState where
  | closed
  | opened
  | half_open
  deriving DecidableEq, Repr

/-- The fields of a `CircuitBreaker` instance; `datetime` timestamps are
modelled as natural numbers (seconds). -/
structure CircuitBreaker where
  name : String
  failure_threshold : Nat
  success_threshold : Nat
  timeout_seconds : Nat
  state : CircuitState
  failure_count : Nat
  success_count : Nat
  last_failure_time : Option Nat
  deriving DecidableEq, Repr

/-- `CircuitBreaker.__init__`: state `CLOSED`, both counters 0, no failure
recorded yet. -/
def mkCircuitBreaker (name : String)
    (failure_threshold success_threshold timeout_seconds : Nat) :
    CircuitBreaker :=
  { name := name, failure_threshold := failure_threshold,
    success_threshold := success_threshold,
    timeout_seconds := timeout_seconds, state := .closed,
    failure_count := 0, success_count := 0, last_failure_time := none }

/-- Modelled from the spec: the body of `reset_counts` is not in the
source; it is called exactly when the breaker closes again, and the spec's
"consecutive successes/failures" counters restart from a closed breaker,
so both counters are cleared. -/
def reset_counts (cb : CircuitBreaker) : CircuitBreaker :=
  { cb with failure_count := 0, success_count := 0 }

/-- Modelled from the spec: the body of `should_attempt_reset` is not in
the source; the spec says an open breaker "rejects calls immediately with
`CircuitOpenError` for `timeout_seconds`; it then allows one probe", so the
probe is allowed once `timeout_seconds` have elapsed since the last
recorded failure. -/
def should_attempt_reset (cb : CircuitBreaker) (now : Nat) : Bool :=
  match cb.last_failure_time with
  | none => true
  | some t => t + cb.timeout_seconds ≤ now

/-- `CircuitBreaker.record_success`: in `HALF_OPEN` the success counter is
incremented and reaching `success_threshold` closes the breaker (resetting
the counters); in any other state the failure counter is cleared. -/
def record_success (cb : CircuitBreaker) : CircuitBreaker :=
  if cb.state = .half_open then
    let cb :=  { cb with success_count := cb.success_count + 1 }
    if cb.success_threshold ≤ cb.success_count then
      reset_counts { cb with state := .closed }
    else cb
  else { cb with failure_count := 0 }

/-- `CircuitBreaker.record_failure`: increments the failure counter,
stamps `last_failure_time`, and opens the breaker once the counter reaches
`failure_threshold`. -/
def record_failure (cb : CircuitBreaker) (now : Nat) : CircuitBreaker :=
  let cb := { cb with failure_count := cb.failure_count + 1,
                      last_failure_time := some now }
  if cb.failure_threshold ≤ cb.failure_count then
    { cb with state := .opened }
  else cb

/-- Observable outcome of one `CircuitBreaker.call`: the call either
raised `CircuitOpenError` without invoking the wrapped function, or it
invoked the function, which succeeded or raised. -/
inductive CallOutcome where
  | raisedCircuitOpen
  | invokedSuccess
  | invokedFailure
  deriving DecidableEq, Repr

/-- `CircuitBreaker.call(func, ...)`: an `OPEN` breaker either moves to
`HALF_OPEN` (when `should_attempt_reset`) or raises `CircuitOpenError`
without touching `func`; otherwise `func` is awaited and
`record_success` / `record_failure` applied to its outcome, which `b`
supplies. -/
def call (cb : CircuitBreaker) (now : Nat) (b : Bool) :
    CircuitBreaker × CallOutcome :=
  let gate : Option CircuitBreaker :=
    if cb.state = .opened then
      if should_attempt_reset cb now then
        some { cb with state := .half_open }
      else
        none
    else some cb
  match gate with
  | none => (cb, .raisedCircuitOpen)
  | some cb' =>
      if b then (record_success cb', .invokedSuccess)
      else (record_failure cb' now, .invokedFailure)

/-- Runs a breaker through a sequence of calls, each given by its time and
the wrapped operation's outcome. -/
def runTrace (cb : CircuitBreaker) (trace : List (Nat × Bool)) :
    CircuitBreaker :=
  trace.foldl (fun c p => (call c p.1 p.2).1) cb

theorem runTrace_cons (cb : CircuitBreaker) (p : Nat × Bool)
    (rest : List (Nat × Bool)) :
    runTrace cb (p :: rest) = runTrace (call cb p.1 p.2).1 rest := rfl

/-- A closed breaker that absorbs enough consecutive failures to exhaust
its threshold ends up open. -/
theorem closed_failures_open (times : List Nat) :
    ∀ cb : CircuitBreaker, cb.state = .closed → times ≠ [] →
    cb.failure_count + times.length = cb.failure_threshold →
    (runTrace cb (times.map fun t => (t, false))).state = .opened := by
  induction times with
  | nil => intro cb _ hne _; exact absurd rfl hne
  | cons t rest ih =>
    intro cb hclosed _ hcount
    have hstep : (call cb t false).1 = record_failure cb t := by
      simp [call, hclosed]
    rw [List.map_cons, runTrace_cons]
    simp only []
    rw [hstep]
    cases rest with
    | nil =>
      have hcond : cb.failure_threshold ≤ cb.failure_count + 1 := by
        simp at hcount; omega
      show (runTrace (record_failure cb t) []).state = .opened
      simp [runTrace, record_failure, hcond]
    | cons r rs =>
      have hcond : ¬ cb.failure_threshold ≤ cb.failure_count + 1 := by
        simp at hcount; omega
      apply ih
      · simp [record_failure, hcond, hclosed]
      · simp
      · simp [record_failure, hcond]
        simp at hcount
        omega

/-! ## Claim C5 -/

/-- C5: from a freshly constructed (closed) breaker, `failure_threshold`
consecutive failed calls leave it open; and while it is open and
`timeout_seconds` have not elapsed since the last failure, every call
returns the breaker untouched and raises `CircuitOpenError` — the same
result for either behaviour of the wrapped operation, which is therefore
never invoked. -/
theorem breaker_opens_then_rejects_without_invoking
    (nm : String) (ft st ts : Nat) (times : List Nat)
    (hft : 0 < ft) (hlen : times.length = ft) :
    (runTrace (mkCircuitBreaker nm ft st ts)
        (times.map fun t => (t, false))).state = .opened ∧
    (∀ (cb : CircuitBreaker) (now t : Nat) (b : Bool),
      cb.state = .opened → cb.last_failure_time = some t →
      now < t + cb.timeout_seconds →
      call cb now b = (cb, .raisedCircuitOpen)) := by
  constructor
  · apply closed_failures_open
    · rfl
    · intro hnil
      rw [hnil] at hlen
      simp at hlen
      omega
    · simpa [mkCircuitBreaker] using hlen
  · intro cb now t b hopen hlast hnow
    have hres : should_attempt_reset cb now = false := by
      simp [should_attempt_reset, hlast]
      omega
    simp [call, hopen, hres]

/-- Witness for C5: a breaker with threshold 2 opens after two failed
calls and then rejects a call at time 1 without consulting the operation. -/
theorem breaker_opens_then_rejects_without_invoking_witness :
    (runTrace (mkCircuitBreaker "rpc" 2 3 60)
        ([0, 1].map fun t => (t, false))).state = .opened := by
  exact (breaker_opens_then_rejects_without_invoking "rpc" 2 3 60 [0, 1]
    (by decide) (by decide)).1

/-- The reachable-state invariant behind the half-open behaviour: an open
or half-open breaker has already accumulated at least `failure_threshold`
failures, because nothing clears `failure_count` on the way to those
states. -/
def BreakerInv (cb : CircuitBreaker) : Prop :=
  cb.state = .opened ∨ cb.state = .half_open →
    cb.failure_threshold ≤ cb.failure_count

theorem breakerInv_mk (nm : String) (ft st ts : Nat) :
    BreakerInv (mkCircuitBreaker nm ft st ts) := by
  intro h
  rcases h with h | h <;> simp [mkCircuitBreaker] at h

theorem breakerInv_call (cb : CircuitBreaker) (now : Nat) (b : Bool)
    (h : BreakerInv cb) : BreakerInv (call cb now b).1 := by
  obtain ⟨nm, ft, st, ts, s, fc, sc, lf⟩ := cb
  unfold BreakerInv at h ⊢
  cases s <;> cases b <;>
    simp_all [call, record_success, record_failure, reset_counts] <;>
    split_ifs <;> simp_all <;>
    first
      | omega
      | (split_ifs <;> simp_all <;> omega)

theorem breakerInv_run (trace : List (Nat × Bool)) :
    ∀ cb : CircuitBreaker, BreakerInv cb → BreakerInv (runTrace cb trace) := by
  induction trace with
  | nil => intro cb h; exact h
  | cons p rest ih =>
    intro cb h
    rw [runTrace_cons]
    exact ih _ (breakerInv_call cb p.1 p.2 h)

/-- A half-open breaker whose success counter is `times.length` short of
`success_threshold` closes after that many further successful calls — the
counter is cumulative, whatever its starting value. -/
theorem half_open_successes_close (times : List Nat) :
    ∀ cb : CircuitBreaker, cb.state = .half_open → times ≠ [] →
    cb.success_count + times.length = cb.success_threshold →
    (runTrace cb (times.map fun t => (t, true))).state = .closed := by
  induction times with
  | nil => intro cb _ hne _; exact absurd rfl hne
  | cons t rest ih =>
    intro cb hho _ hcount
    have hstep : (call cb t true).1 = record_success cb := by
      simp [call, hho]
    rw [List.map_cons, runTrace_cons]
    simp only []
    rw [hstep]
    cases rest with
    | nil =>
      have hcond : cb.success_threshold ≤ cb.success_count + 1 := by
        simp at hcount; omega
      show (runTrace (record_success cb) []).state = .closed
      simp [runTrace, record_success, reset_counts, hho, hcond]
    | cons r rs =>
      have hcond : ¬ cb.success_threshold ≤ cb.success_count + 1 := by
        simp at hcount; omega
      apply ih
      · simp [record_success, hho, hcond]
      · simp
      · simp [record_success, hho, hcond]
        simp at hcount
        omega

/-! ## Claim C6 -/

/-- C6 counterexample: a breaker with `success_threshold = 2` whose two
successes are separated by a half-open failure (success at t=10, failure at
t=10 which reopens it, success at t=20) still closes — the reopening left
`success_count = 1`, so one further, non-consecutive success sufficed. -/
theorem nonconsecutive_successes_close_breaker :
    (mkCircuitBreaker "dep" 1 2 10).success_threshold = 2 ∧
    (runTrace (mkCircuitBreaker "dep" 1 2 10)
        [(0, false), (10, true), (10, false)]).state = .opened ∧
    (runTrace (mkCircuitBreaker "dep" 1 2 10)
        [(0, false), (10, true), (10, false)]).success_count = 1 ∧
    (runTrace (mkCircuitBreaker "dep" 1 2 10)
        [(0, false), (10, true), (10, false), (20, true)]).state = .closed := by
  refine ⟨rfl, rfl, rfl, rfl⟩

/-- C6 (amended): any single failed call on a reachable half-open breaker
reopens it immediately; but a half-open failure preserves `success_count`,
and successes accumulate across half-open phases — `success_threshold`
further successes close the breaker from any starting count (successes
need not be consecutive). -/
theorem half_open_failure_reopens_successes_cumulative
    (nm : String) (ft st ts : Nat) (trace : List (Nat × Bool))
    (now : Nat) (times : List Nat) :
    ((runTrace (mkCircuitBreaker nm ft st ts) trace).state = .half_open →
      (call (runTrace (mkCircuitBreaker nm ft st ts) trace) now false).1.state
        = .opened) ∧
    (∀ cb : CircuitBreaker,
      (record_failure cb now).success_count = cb.success_count) ∧
    (∀ cb : CircuitBreaker, cb.state = .half_open → times ≠ [] →
      cb.success_count + times.length = cb.success_threshold →
      (runTrace cb (times.map fun t => (t, true))).state = .closed) := by
  refine ⟨?_, ?_, fun cb h1 h2 h3 => half_open_successes_close times cb h1 h2 h3⟩
  · intro hho
    have hinv : BreakerInv (runTrace (mkCircuitBreaker nm ft st ts) trace) :=
      breakerInv_run trace _ (breakerInv_mk nm ft st ts)
    have hft := hinv (Or.inr hho)
    have hcond : (runTrace (mkCircuitBreaker nm ft st ts) trace).failure_threshold ≤
        (runTrace (mkCircuitBreaker nm ft st ts) trace).failure_count + 1 := by
      omega
    simp [call, hho, record_failure, hcond]
  · intro cb
    simp [record_failure]
    split_ifs <;> rfl

/-- Witness for C6 (amended): the concrete breaker of the counterexample
reaches `half_open` after `[(0,false),(10,true)]`, and a failed call at
t=10 reopens it. -/
theorem half_open_failure_reopens_successes_cumulative_witness :
    (runTrace (mkCircuitBreaker "dep" 1 2 10)
        [(0, false), (10, true)]).state = .half_open ∧
    (call (runTrace (mkCircuitBreaker "dep" 1 2 10)
        [(0, false), (10, true)]) 10 false).1.state = .opened := by
  refine ⟨rfl, ?_⟩
  exact (half_open_failure_reopens_successes_cumulative "dep" 1 2 10
    [(0, false), (10, true)] 10 []).1 rfl

/-! ## Policy Engine (modelled from the spec)

`app/core/policy/engine.py` is described in the repository's changelog but
its code is not in the repository, so the engine is modelled from the
specification's words. -/

/-- The three policy layers. -/
inductive PolicyType where
  | system
  | session
  | risk
  deriving DecidableEq, Repr

/-- Violation severities. -/
inductive Severity where
  | warn
  | block
  deriving DecidableEq, Repr, BEq

/-- A single policy violation, tagged with the layer that produced it. -/
structure PolicyViolation where
  policy_type : PolicyType
  severity : Severity
  message : String
  deriving DecidableEq, Repr

/-- The fields of an `ActionContext` the spec names for policy
evaluation. -/
structure ActionContext where
  action_type : String
  value_usd : ℚ
  chain : String
  deriving DecidableEq, Repr

/-- The engine's verdict: approval, the ordered violations gathered before
any short-circuit, and the evaluators that were skipped (their absence
recorded, not silently omitted). -/
structure PolicyResult where
  approved : Bool
  violations : List PolicyViolation
  skipped : List PolicyType
  deriving DecidableEq, Repr

/-- Whether a violation list contains a block-severity violation. -/
def hasBlock (vs : List PolicyViolation) : Bool :=
  vs.any fun v => v.severity == Severity.block

/-- Modelled from the spec: `PolicyEngine.evaluate` (absent from the
repository's sources) runs System Policy, then Session Policy, then Risk
Policy, in that fixed order, short-circuiting on a block-severity
violation with the skipped evaluators recorded, and approves iff no
block-severity violation occurred. -/
def PolicyEngine.evaluate
    (sys sess risk : ActionContext → List PolicyViolation)
    (ctx : ActionContext) : PolicyResult :=
  let vs1 := sys ctx
  if hasBlock vs1 then
    { approved := false, violations := vs1,
      skipped := [.session, .risk] }
  else
    let vs2 := sess ctx
    if hasBlock vs2 then
      { approved := false, violations := vs1 ++ vs2, skipped := [.risk] }
    else
      let vs3 := risk ctx
      { approved := !hasBlock vs3, violations := vs1 ++ vs2 ++ vs3,
        skipped := [] }

/-! ## Claim C1 -/

/-- C1: a System-Policy block short-circuits evaluation — the result holds
exactly the System violations with Session and Risk recorded as skipped,
and it is identical for any Session/Risk evaluators whatsoever (they are
not run); in particular every violation in the result is a System
violation, so a simultaneous Session violation never appears. -/
theorem system_block_short_circuits
    (sys sess risk sess' risk' : ActionContext → List PolicyViolation)
    (ctx : ActionContext) (hblock : hasBlock (sys ctx) = true) :
    PolicyEngine.evaluate sys sess risk ctx =
      { approved := false, violations := sys ctx,
        skipped := [.session, .risk] } ∧
    PolicyEngine.evaluate sys sess risk ctx =
      PolicyEngine.evaluate sys sess' risk' ctx ∧
    ∀ v ∈ (PolicyEngine.evaluate sys sess risk ctx).violations, v ∈ sys ctx := by
  refine ⟨?_, ?_, ?_⟩ <;> simp [PolicyEngine.evaluate, hblock]

/-- Witness for C1: a kill-switch System block together with a
simultaneous Session block yields only the System violation. -/
theorem system_block_short_circuits_witness :
    (PolicyEngine.evaluate
      (fun _ => [⟨.system, .block, "emergency stop"⟩])
      (fun _ => [⟨.session, .block, "session expired"⟩])
      (fun _ => [])
      ⟨"swap", 100, "ethereum"⟩).violations =
      [⟨.system, .block, "emergency stop"⟩] := by
  have h := system_block_short_circuits
    (fun _ => [⟨.system, .block, "emergency stop"⟩])
    (fun _ => [⟨.session, .block, "session expired"⟩])
    (fun _ => []) (fun _ => []) (fun _ => [])
    ⟨"swap", 100, "ethereum"⟩ (by decide)
  rw [h.1]

/-! ## Nonce manager (modelled from the spec)

The bodies of `NonceManager.get_next_nonce` / `release_nonce` are
`pass`-stubs in the repository, so the manager is modelled from the
specification's words, for a single (address, chain) pair. -/

/-- Modelled from the spec: the nonce-tracking state for one
(address, chain) pair — `next` is the next fresh nonce, `in_flight` the
reserved-but-unconfirmed nonces, `pool` the nonces a failed `send`
returned for reuse. -/
structure NonceState where
  next : Nat
  in_flight : Finset Nat
  pool : Finset Nat
  deriving DecidableEq

/-- A fresh manager: no nonce handed out yet. -/
def initialNonceState : NonceState :=
  { next := 0, in_flight := ∅, pool := ∅ }

/-- Modelled from the spec: `get_next_nonce` hands out the smallest
available nonce — a previously released one when the pool is non-empty
(keeping issuance gap-free), else the fresh counter — and reserves it as
in-flight. -/
def get_next_nonce (s : NonceState) : Nat × NonceState :=
  if h : s.pool.Nonempty then
    (s.pool.min' h,
     { s with pool := s.pool.erase (s.pool.min' h),
              in_flight := insert (s.pool.min' h) s.in_flight })
  else
    (s.next, { next := s.next + 1, in_flight := insert s.next s.in_flight,
               pool := s.pool })

/-- Modelled from the spec: `release_nonce` returns a reserved nonce to
the pool when a `send` fails at submission; a nonce that is not in flight
(already released or never reserved) is left alone, so a release happens
exactly once. -/
def release_nonce (s : NonceState) (n : Nat) : NonceState :=
  if n ∈ s.in_flight then
    { s with in_flight := s.in_flight.erase n, pool := insert n s.pool }
  else s

/-- An operation against the manager for this (address, chain) pair. -/
inductive NonceOp where
  | get
  | release (n : Nat)
  deriving DecidableEq, Repr

def applyNonceOp (s : NonceState) : NonceOp → NonceState
  | .get => (get_next_nonce s).2
  | .release n => release_nonce s n

def runNonceOps (s : NonceState) (ops : List NonceOp) : NonceState :=
  ops.foldl applyNonceOp s

/-- Gap-freedom: the nonces handed out and not returned (`in_flight`)
together with the returned ones (`pool`) are exactly `0, …, next-1` — no
nonce below the counter is ever lost, and none is in both sets. -/
def NonceInv (s : NonceState) : Prop :=
  s.in_flight ∪ s.pool = Finset.range s.next ∧ Disjoint s.in_flight s.pool

theorem nonceInv_initial : NonceInv initialNonceState := by
  constructor <;> simp [initialNonceState]

theorem nonceInv_get (s : NonceState) (h : NonceInv s) :
    NonceInv (get_next_nonce s).2 := by
  obtain ⟨hunion, hdisj⟩ := h
  rw [get_next_nonce]
  split
  case isTrue hne =>
    have hmem : s.pool.min' hne ∈ s.pool := s.pool.min'_mem hne
    constructor
    · show insert (s.pool.min' hne) s.in_flight ∪
          s.pool.erase (s.pool.min' hne) = Finset.range s.next
      rw [← hunion]
      ext x
      simp only [Finset.mem_union, Finset.mem_insert, Finset.mem_erase]
      by_cases hxm : x = s.pool.min' hne <;> simp [hxm, hmem]
    · show Disjoint (insert (s.pool.min' hne) s.in_flight)
          (s.pool.erase (s.pool.min' hne))
      rw [Finset.disjoint_left]
      intro x hx hx'
      simp only [Finset.mem_insert] at hx
      simp only [Finset.mem_erase] at hx'
      rcases hx with rfl | hx
      · exact hx'.1 rfl
      · exact (Finset.disjoint_left.mp hdisj hx) hx'.2
  case isFalse hne =>
    have hpool : s.pool = ∅ := Finset.not_nonempty_iff_eq_empty.mp hne
    constructor
    · show insert s.next s.in_flight ∪ s.pool = Finset.range (s.next + 1)
      rw [hpool, Finset.union_empty, Finset.range_succ, ← hunion, hpool,
        Finset.union_empty]
    · show Disjoint (insert s.next s.in_flight) s.pool
      simp [hpool]

theorem nonceInv_release (s : NonceState) (n : Nat) (h : NonceInv s) :
    NonceInv (release_nonce s n) := by
  obtain ⟨hunion, hdisj⟩ := h
  rw [release_nonce]
  split
  case isTrue hmem =>
    constructor
    · show s.in_flight.erase n ∪ insert n s.pool = Finset.range s.next
      rw [← hunion]
      ext x
      simp only [Finset.mem_union, Finset.mem_insert, Finset.mem_erase]
      by_cases hxn : x = n <;> simp [hxn, hmem]
    · show Disjoint (s.in_flight.erase n) (insert n s.pool)
      rw [Finset.disjoint_left]
      intro x hx hx'
      simp only [Finset.mem_erase] at hx
      simp only [Finset.mem_insert] at hx'
      rcases hx' with rfl | hx'
      · exact hx.1 rfl
      · exact (Finset.disjoint_left.mp hdisj hx.2) hx'
  case isFalse => exact ⟨hunion, hdisj⟩

theorem nonceInv_run (ops : List NonceOp) :
    ∀ s : NonceState, NonceInv s → NonceInv (runNonceOps s ops) := by
  induction ops with
  | nil => intro s h; exact h
  | cons op rest ih =>
    intro s h
    show NonceInv (runNonceOps (applyNonceOp s op) rest)
    apply ih
    cases op with
    | get => exact nonceInv_get s h
    | release n => exact nonceInv_release s n h

/-- Every pool entry sits below the fresh counter. -/
theorem pool_lt_next (s : NonceState) (h : NonceInv s) :
    ∀ x ∈ s.pool, x < s.next := by
  intro x hx
  have : x ∈ Finset.range s.next := by
    rw [← h.1]
    exact Finset.mem_union_right _ hx
  simpa using this

/-! ## Claim C7 -/

/-- C7: on a gap-free state, two successive `get_next_nonce` calls return
strictly increasing nonces; a failed send's `release_nonce` of an
in-flight nonce returns it to the pool and a repeated release is a no-op
(exactly once); and the gap-free invariant — outstanding and pooled nonces
tile `0, …, next-1` exactly — holds after any sequence of operations from
a fresh manager. -/
theorem nonce_monotone_release_once_gapfree
    (ops : List NonceOp) (s : NonceState) (n : Nat)
    (hinv : NonceInv s) (hn : n ∈ s.in_flight) :
    NonceInv (runNonceOps initialNonceState ops) ∧
    (get_next_nonce s).1 < (get_next_nonce (get_next_nonce s).2).1 ∧
    (release_nonce s n).pool = insert n s.pool ∧
    release_nonce (release_nonce s n) n = release_nonce s n := by
  refine ⟨nonceInv_run ops initialNonceState nonceInv_initial, ?_, ?_, ?_⟩
  · by_cases hne : s.pool.Nonempty
    · have hmem : s.pool.min' hne ∈ s.pool := s.pool.min'_mem hne
      have h1 : get_next_nonce s = (s.pool.min' hne,
          { next := s.next,
            in_flight := insert (s.pool.min' hne) s.in_flight,
            pool := s.pool.erase (s.pool.min' hne) }) := by
        simp [get_next_nonce, hne]
      rw [h1]
      by_cases hne2 : (s.pool.erase (s.pool.min' hne)).Nonempty
      · have h2 : (get_next_nonce
            { next := s.next,
              in_flight := insert (s.pool.min' hne) s.in_flight,
              pool := s.pool.erase (s.pool.min' hne) }).1 =
            (s.pool.erase (s.pool.min' hne)).min' hne2 := by
          simp [get_next_nonce, hne2]
        rw [h2]
        have hmem' := (s.pool.erase (s.pool.min' hne)).min'_mem hne2
        have hge : s.pool.min' hne ≤
            (s.pool.erase (s.pool.min' hne)).min' hne2 :=
          s.pool.min'_le _ (Finset.mem_of_mem_erase hmem')
        have hneq : (s.pool.erase (s.pool.min' hne)).min' hne2 ≠
            s.pool.min' hne := Finset.ne_of_mem_erase hmem'
        omega
      · have h2 : (get_next_nonce
            { next := s.next,
              in_flight := insert (s.pool.min' hne) s.in_flight,
              pool := s.pool.erase (s.pool.min' hne) }).1 = s.next := by
          simp [get_next_nonce, hne2]
        rw [h2]
        exact pool_lt_next s hinv _ hmem
    · have h1 : get_next_nonce s = (s.next,
          { next := s.next + 1, in_flight := insert s.next s.in_flight,
            pool := s.pool }) := by
        simp [get_next_nonce, hne]
      rw [h1]
      have h2 : (get_next_nonce
          { next := s.next + 1, in_flight := insert s.next s.in_flight,
            pool := s.pool }).1 = s.next + 1 := by
        simp [get_next_nonce, hne]
      rw [h2]
      omega
  · simp [release_nonce, hn]
  · have h1 : release_nonce s n =
        { s with in_flight := s.in_flight.erase n,
                 pool := insert n s.pool } := by
      simp [release_nonce, hn]
    rw [h1]
    unfold release_nonce
    split
    case isTrue hmem =>
      exact absurd hmem (by simp)
    case isFalse => rfl

/-- Witness for C7: after one `get` the state is `⟨1, {0}, ∅⟩`; two
further gets hand out 1 then 2, and releasing the in-flight nonce 0 twice
equals releasing it once. -/
theorem nonce_monotone_release_once_gapfree_witness :
    (get_next_nonce ⟨1, {0}, ∅⟩).1 < (get_next_nonce (get_next_nonce ⟨1, {0}, ∅⟩).2).1 ∧
    release_nonce (release_nonce ⟨1, {0}, ∅⟩ 0) 0 = release_nonce ⟨1, {0}, ∅⟩ 0 := by
  have h := nonce_monotone_release_once_gapfree [] ⟨1, {0}, ∅⟩ 0
    ⟨by decide, by decide⟩ (by decide)
  exact ⟨h.2.1, h.2.2.2⟩

end Sherpa
